import Mathlib

/-!
Shallow embedding of the compliance GitHub bot core (src/index.ts):
the rule engine (analyzeFileForCompliance), the report aggregator
(generateComplianceReport), the report renderer (formatComplianceReport)
and the push handler that wires them together.
-/

namespace ComplianceBot

inductive Severity where
  | high
  | medium
  | low
deriving DecidableEq, Repr

structure ComplianceViolation where
  file : String
  issue : String
  severity : Severity
deriving DecidableEq, Repr

structure ComplianceReport where
  violations : List ComplianceViolation
  passed : Bool
  summary : String
deriving DecidableEq, Repr

/-! ### Character classes and case folding used by the JS regexes -/

/-- ASCII lower-casing; models the effect of the JS regex i flag on the
ASCII-only keywords and texts the rule catalog compares (both the pattern
and the subject are folded). -/
def lowerAscii (c : Char) : Char :=
  if 'A' ≤ c ∧ c ≤ 'Z' then Char.ofNat (c.toNat + 32) else c

/-- The JS regex whitespace class (backslash-s): TAB LF VT FF CR SP NBSP
OGHAM SPACE, the U+2000..U+200A range, LINE SEP, PARA SEP, NARROW NBSP,
MATH SPACE, IDEOGRAPHIC SPACE, BOM. -/
def isJsSpace (c : Char) : Bool :=
  let n := c.toNat
  n = 9 || n = 10 || n = 11 || n = 12 || n = 13 || n = 32 ||
  n = 160 || n = 5760 || (8192 ≤ n && n ≤ 8202) || n = 8232 || n = 8233 ||
  n = 8239 || n = 8287 || n = 12288 || n = 65279

/-- The quote class of the secret-assignment regexes: single or double quote. -/
def isQuote (c : Char) : Bool := c = '\'' || c = '"'

/-- The JS regex word class, for the word-boundary anchor in the eval rule. -/
def isWordChar (c : Char) : Bool :=
  ('a' ≤ c && c ≤ 'z') || ('A' ≤ c && c ≤ 'Z') || ('0' ≤ c && c ≤ '9') || c = '_'

/-! ### Pattern matching primitives -/

/-- Strips the literal kw from the front of s, returning the rest. -/
def stripLit : List Char → List Char → Option (List Char)
  | [], s => some s
  | _ :: _, [] => none
  | k :: ks, c :: cs => if c = k then stripLit ks cs else none

/-- RegExp.test semantics: the pattern p matches at some position of s
(p receives the suffix starting at that position). -/
def testAt (p : List Char → Bool) : List Char → Bool
  | [] => p []
  | c :: cs => p (c :: cs) || testAt p cs

/-- After an opening quote has been consumed: one or more non-quote
characters followed by a closing quote.  The JS engine matches the
non-quote class greedily; since the run of non-quote characters can only
stop at a quote or at the end of the input, backtracking never finds a
match the greedy scan misses, so this Bool is exactly whether the regex
tail can match here. -/
def quotedTail (s : List Char) : Bool :=
  let run := s.takeWhile (fun c => !isQuote c)
  !run.isEmpty && !(s.drop run.length).isEmpty

/-- Matches kw, then any whitespace, then an equals sign, then any
whitespace, then a quoted non-empty literal, at the head of s.  The
whitespace runs are matched greedily by the engine; the character after
each run (an equals sign, a quote) is not whitespace, so the greedy scan
is again exact. -/
def assignAt (kw : List Char) (s : List Char) : Bool :=
  match stripLit kw s with
  | none => false
  | some r1 =>
    match r1.dropWhile isJsSpace with
    | '=' :: r2 =>
      match r2.dropWhile isJsSpace with
      | c :: r3 => isQuote c && quotedTail r3
      | [] => false
    | _ => false

/-! ### The rule tests (RegExp.test of each catalog pattern) -/

/-- Case-insensitive assignment-of-quoted-literal test (rules 1-3): some
alternative keyword, then the assignment tail, anywhere in the text; the
i flag is modelled by ASCII-lowering both the keywords and the text. -/
def secretAssignTest (kws : List String) (patch : String) : Bool :=
  testAt (fun s => kws.any fun kw => assignAt (kw.data.map lowerAscii) s)
    (patch.data.map lowerAscii)

/-- Case-sensitive literal containment. -/
def containsLit (kw : String) (patch : String) : Bool :=
  testAt (fun s => (stripLit kw.data s).isSome) patch.data

/-- Case-insensitive literal containment (i flag: both sides ASCII-lowered). -/
def containsLitCI (kw : String) (patch : String) : Bool :=
  testAt (fun s => (stripLit (kw.data.map lowerAscii) s).isSome)
    (patch.data.map lowerAscii)

/-- Rule 4: aws_access_key_id or aws_secret_access_key, case-insensitive. -/
def awsCredTest (patch : String) : Bool :=
  containsLitCI "aws_access_key_id" patch || containsLitCI "aws_secret_access_key" patch

/-- Rule 5 (case-sensitive, the source regex has no i flag): the literal
console-dot prefix followed by one of the five method names. -/
def consoleMethodAt (s : List Char) : Bool :=
  match stripLit "console.".data s with
  | none => false
  | some r => ["log", "debug", "info", "warn", "error"].any fun m => (stripLit m.data r).isSome

def consoleTest (patch : String) : Bool := testAt consoleMethodAt patch.data

/-- Rule 6 (i flag): a TODO-family marker.  The source pattern allows an
optional trailing colon, which can consume zero characters and therefore
cannot affect whether RegExp.test finds a match. -/
def todoTest (patch : String) : Bool :=
  ["TODO", "FIXME", "HACK", "XXX"].any fun kw => containsLitCI kw patch

/-- Rule 7 (case-sensitive, no i flag in the source regex). -/
def lintDisableTest (patch : String) : Bool :=
  ["eslint-disable", "@ts-ignore", "@ts-nocheck"].any fun kw => containsLit kw patch

/-- Rule 8 helper: word-boundary, the literal eval, optional whitespace and
an opening parenthesis, at the head of s; prev is the character before this
position (none at the start of the text).  Since the next character of any
match is a word character, the boundary holds iff prev is absent or not a
word character. -/
def evalCallAt (prev : Option Char) (s : List Char) : Bool :=
  (match prev with
   | none => true
   | some c => !isWordChar c) &&
  (match stripLit "eval".data s with
   | none => false
   | some r =>
     match r.dropWhile isJsSpace with
     | '(' :: _ => true
     | _ => false)

/-- Scans every position of the text, tracking the previous character for
the word-boundary check. -/
def evalScan : Option Char → List Char → Bool
  | prev, [] => evalCallAt prev []
  | prev, c :: cs => evalCallAt prev (c :: cs) || evalScan (some c) cs

/-- Rule 8 (case-sensitive). -/
def evalCallTest (patch : String) : Bool := evalScan none patch.data

/-! ### The rule engine: analyzeFileForCompliance -/

/-- One entry of the secretPatterns table of the source: a pattern test and
the issue text pushed when it fires. -/
structure SecretRule where
  check : String → Bool
  issue : String

/-- The secretPatterns table.  Rule 2's pattern, api then an optional
underscore or hyphen then key, or the plain apikey alternative, matches
exactly the three literal keywords below. -/
def secretPatterns : List SecretRule :=
  [ ⟨secretAssignTest ["password", "passwd", "pwd"], "Hardcoded password detected"⟩,
    ⟨secretAssignTest ["api_key", "api-key", "apikey"], "Hardcoded API key detected"⟩,
    ⟨secretAssignTest ["secret", "token"], "Hardcoded secret/token detected"⟩,
    ⟨awsCredTest, "AWS credentials detected"⟩ ]

/-- The violations pushed by one conditional of the source: one record when
the pattern tests true, none otherwise. -/
def ruleHit (filename : String) (cond : Bool) (issue : String) (sev : Severity) :
    List ComplianceViolation :=
  if cond then [⟨filename, issue, sev⟩] else []

/-- analyzeFileForCompliance: the loop over secretPatterns pushing one
high-severity record per firing table entry, followed by the four
stand-alone checks, in source order. -/
def analyzeFileForCompliance (filename patch : String) : List ComplianceViolation :=
  (secretPatterns.flatMap fun r => ruleHit filename (r.check patch) r.issue .high)
  ++ ruleHit filename (consoleTest patch)
      "Console statements detected - use proper logging framework" .low
  ++ ruleHit filename (todoTest patch)
      "TODO/FIXME comments detected - should be tracked as issues" .low
  ++ ruleHit filename (lintDisableTest patch)
      "Linting rules disabled - fix the underlying issue instead" .medium
  ++ ruleHit filename (evalCallTest patch) "Unsafe eval() usage detected" .high

/-! ### The report aggregator: generateComplianceReport -/

/-- generateComplianceReport: passed is emptiness of the violation list,
the three severity buckets are filters, and the summary is the success
line or the count breakdown, exactly as concatenated by the source. -/
def generateComplianceReport (violations : List ComplianceViolation) : ComplianceReport :=
  let passed := violations.length == 0
  let highSeverity := violations.filter (fun v => v.severity == .high)
  let mediumSeverity := violations.filter (fun v => v.severity == .medium)
  let lowSeverity := violations.filter (fun v => v.severity == .low)
  let summary :=
    if passed then "✅ All compliance checks passed!"
    else "❌ Found " ++ toString violations.length ++ " compliance violation(s):\n" ++
      "- " ++ toString highSeverity.length ++ " high severity\n" ++
      "- " ++ toString mediumSeverity.length ++ " medium severity\n" ++
      "- " ++ toString lowSeverity.length ++ " low severity"
  ⟨violations, passed, summary⟩

/-! ### The report renderer: formatComplianceReport

The source groups violations into a plain JS object keyed by file path and
iterates Object.entries of it.  ECMAScript enumerates own string keys of an
ordinary object with the array-index keys first, in ascending numeric
order, and only then the remaining keys in insertion order; an array-index
key is the canonical decimal form of an integer below 2^32 - 1.  The
grouping below models exactly that. -/

def digitVal (c : Char) : Nat := c.toNat - 48

def isDigitChar (c : Char) : Bool := '0' ≤ c && c ≤ '9'

/-- Numeric value of a decimal key. -/
def keyNum (s : String) : Nat := s.data.foldl (fun a c => a * 10 + digitVal c) 0

/-- Whether s is an ECMAScript array-index property key: the canonical
decimal form (no leading zero except the single digit 0) of an integer in
the interval from 0 up to, but excluding, 4294967295. -/
def isArrayIndexKey (s : String) : Bool :=
  match s.data with
  | [] => false
  | [c] => isDigitChar c
  | c :: cs => isDigitChar c && c ≠ '0' && cs.all isDigitChar && keyNum s < 4294967295

/-- The own keys of the grouping object in insertion order: each
violation's file path, first occurrence first, no duplicates.  This
describes the object on the success path of the grouping loop, i.e. when
no file path collides with an inherited Object.prototype property; the
loop itself, with its error path, is groupLoop below. -/
def insertionKeys (vs : List ComplianceViolation) : List String :=
  vs.foldl (fun ks v => if v.file ∈ ks then ks else ks ++ [v.file]) []

/-- The property names an empty object literal inherits from
Object.prototype (the own property names of Object.prototype, including
the proto accessor).  Reading any of these on the grouping object yields a
truthy inherited value even though the object has no such own key. -/
def objectProtoProps : List String :=
  ["constructor", "hasOwnProperty", "isPrototypeOf", "propertyIsEnumerable",
   "toLocaleString", "toString", "valueOf", "__defineGetter__",
   "__defineSetter__", "__lookupGetter__", "__lookupSetter__", "__proto__"]

/-- The grouping loop of formatComplianceReport, tracking the object's own
keys in insertion order.  The source tests truthiness of the lookup
groupedByFile[violation.file]: an own key holds a truthy array, which is
pushed to; an absent key reads as undefined (falsy) and is initialised
then pushed to; but a key inherited from Object.prototype reads as a
truthy function (or, for the proto accessor, a truthy object), so the
initialisation is skipped and push is called on a value with no push
method, throwing a TypeError — modelled by none. -/
def groupLoop : List ComplianceViolation → List String → Option (List String)
  | [], keys => some keys
  | v :: rest, keys =>
    if v.file ∈ keys then groupLoop rest keys
    else if v.file ∈ objectProtoProps then none
    else groupLoop rest (keys ++ [v.file])

/-- Ascending insertion by numeric value (array-index keys are pairwise
distinct, so any ascending order is the ECMAScript one). -/
def insertAsc (k : String) : List String → List String
  | [] => [k]
  | x :: xs => if keyNum k ≤ keyNum x then k :: x :: xs else x :: insertAsc k xs

def sortByKeyNum : List String → List String
  | [] => []
  | x :: xs => insertAsc x (sortByKeyNum xs)

/-- The key order Object.entries yields for keys inserted in order ks:
array-index keys first in ascending numeric order, then the rest in
insertion order. -/
def entriesKeyOrder (ks : List String) : List String :=
  sortByKeyNum (ks.filter isArrayIndexKey) ++ ks.filter (fun k => !isArrayIndexKey k)

/-- Object.entries of the grouping object on the success path of the
grouping loop (no inherited-key collision): for each own key in
enumeration order, the violations pushed under that key, i.e. the
subsequence of the report's violations whose file equals the key, in
original order.  When the loop throws, no entries exist at all. -/
def groupedEntries (vs : List ComplianceViolation) : List (String × List ComplianceViolation) :=
  (entriesKeyOrder (insertionKeys vs)).map (fun f => (f, vs.filter (fun v => v.file == f)))

/-- Concatenation of rendered pieces in order; models the += accumulation
loops of the source. -/
def concatMap (f : α → String) : List α → String
  | [] => ""
  | a :: as => f a ++ concatMap f as

def severityEmoji : Severity → String
  | .high => "🔴"
  | .medium => "🟡"
  | .low => "🔵"

/-- The upper-cased severity label the source computes with toUpperCase. -/
def severityLabel : Severity → String
  | .high => "HIGH"
  | .medium => "MEDIUM"
  | .low => "LOW"

def renderViolationLine (v : ComplianceViolation) : String :=
  "- " ++ severityEmoji v.severity ++ " **" ++ severityLabel v.severity ++ "**: " ++ v.issue ++ "\n"

def renderFileSection (e : String × List ComplianceViolation) : String :=
  "#### 📄 `" ++ e.1 ++ "`\n\n" ++ concatMap renderViolationLine e.2 ++ "\n"

def renderGroups (vs : List ComplianceViolation) : String :=
  concatMap renderFileSection (groupedEntries vs)

/-- The Object.entries iteration of the grouping object whose own keys, in
insertion order, are keys: one file subsection per key in enumeration
order, each listing the violations pushed under that key. -/
def renderGroupsFromKeys (vs : List ComplianceViolation) (keys : List String) : String :=
  concatMap (fun f => renderFileSection (f, vs.filter (fun v => v.file == f)))
    (entriesKeyOrder keys)

/-- The header of the markdown document: title, metadata block (abbreviated
commit id via substring 0 7, author, message), separator, summary. -/
def renderHeader (report : ComplianceReport) (commitSha commitMessage author : String) : String :=
  "## 🔍 Compliance Report\n\n" ++
  "**Commit:** " ++ commitSha.take 7 ++ "\n" ++
  "**Author:** " ++ author ++ "\n" ++
  "**Message:** " ++ commitMessage ++ "\n\n" ++
  "---\n\n" ++
  report.summary ++ "\n\n"

/-- The block appended when the report did not pass, as rendered on the
success path of the grouping loop (the clean grouping; it equals what the
source appends whenever the loop does not throw). -/
def violationsSection (vs : List ComplianceViolation) : String :=
  "### Violations:\n\n" ++ renderGroups vs ++ "\n---\n\n" ++
  "⚠️ Please address these violations before merging to maintain compliance standards."

/-- formatComplianceReport: header, summary, and for a non-passed report
the violations block built by the grouping loop.  The loop throws a
TypeError when a violation's file path is an inherited Object.prototype
property name; the whole call then produces no document, modelled by
none. -/
def formatComplianceReport (report : ComplianceReport)
    (commitSha commitMessage author : String) : Option String :=
  if report.passed then
    some (renderHeader report commitSha commitMessage author)
  else
    match groupLoop report.violations [] with
    | none => none
    | some keys =>
      some (renderHeader report commitSha commitMessage author ++
        ("### Violations:\n\n" ++ renderGroupsFromKeys report.violations keys ++ "\n---\n\n" ++
         "⚠️ Please address these violations before merging to maintain compliance standards."))

/-! ### The push handler (after the branch filter) -/

structure CommitInfo where
  id : String
  message : String
  authorName : String
deriving Repr

structure FileChange where
  filename : String
  patch : Option String
deriving Repr

/-- Outcome of the per-commit getCommit call: a failure (caught, logged and
skipped by the handler) or the list of changed files, which the API may
omit entirely. -/
inductive FetchResult where
  | ok (files : Option (List FileChange))
  | err (msg : String)

structure IssueRequest where
  title : String
  body : String
  labels : List String
deriving Repr

/-- Violations contributed by one changed file: files without a textual
patch are skipped. -/
def fileViolations (f : FileChange) : List ComplianceViolation :=
  match f.patch with
  | some p => analyzeFileForCompliance f.filename p
  | none => []

/-- Violations contributed by one commit: a failed fetch or an absent files
list contributes none. -/
def commitViolations (fetch : String → FetchResult) (c : CommitInfo) : List ComplianceViolation :=
  match fetch c.id with
  | .err _ => []
  | .ok none => []
  | .ok (some files) => files.flatMap fileViolations

/-- allViolations accumulated over the commits of the push, in order. -/
def collectViolations (commits : List CommitInfo) (fetch : String → FetchResult) :
    List ComplianceViolation :=
  commits.flatMap (commitViolations fetch)

def issueTitle (passed : Bool) (latestId : String) : String :=
  if passed then "✅ Compliance Check Passed - " ++ latestId.take 7
  else "❌ Compliance Violations Detected - " ++ latestId.take 7

/-- The push handler after the branch filter: collects violations over all
commits, reads commits at index length - 1 (the latest commit), renders the
report and creates the issue.  When the push has no commits that index is
out of range, the latest commit is undefined and reading its id throws; and
when formatComplianceReport throws (inherited-key collision in the grouping
loop) the handler rejects too.  In both cases no issue is created:
modelled by none. -/
def processPush (commits : List CommitInfo) (fetch : String → FetchResult) :
    Option IssueRequest :=
  let allViolations := collectViolations commits fetch
  match commits.get? (commits.length - 1) with
  | none => none
  | some latestCommit =>
    let report := generateComplianceReport allViolations
    match formatComplianceReport report latestCommit.id latestCommit.message
        latestCommit.authorName with
    | none => none
    | some reportBody =>
      some ⟨issueTitle report.passed latestCommit.id, reportBody,
        if report.passed then ["compliance", "passed"] else ["compliance", "violation"]⟩

/-- A concrete push used as witness data: two commits, the single
violation coming from the first. -/
def exPushCommits : List CommitInfo := [⟨"c1", "m1", "a1"⟩, ⟨"c2", "m2", "a2"⟩]

def exPushFetch : String → FetchResult := fun id =>
  if id == "c1" then FetchResult.ok (some [⟨"f.js", some "eval (x)"⟩])
  else FetchResult.ok none

/-- The issue the handler creates for that push. -/
def exPushIssue : IssueRequest :=
  ⟨issueTitle false "c2",
   renderHeader (generateComplianceReport (collectViolations exPushCommits exPushFetch))
       "c2" "m2" "a2" ++
     ("### Violations:\n\n"
       ++ renderGroupsFromKeys (collectViolations exPushCommits exPushFetch) ["f.js"]
       ++ "\n---\n\n"
       ++ "⚠️ Please address these violations before merging to maintain compliance standards."),
   ["compliance", "violation"]⟩

/-! ### Derived descriptions of the rule engine used by the theorems -/

/-- The full fixed catalog, in evaluation order: the violation each of the
eight rules emits when it fires.  The engine's output is always a
subsequence of this list. -/
def ruleCatalog (f : String) : List ComplianceViolation :=
  (secretPatterns.map fun r => ⟨f, r.issue, Severity.high⟩)
  ++ [⟨f, "Console statements detected - use proper logging framework", .low⟩]
  ++ [⟨f, "TODO/FIXME comments detected - should be tracked as issues", .low⟩]
  ++ [⟨f, "Linting rules disabled - fix the underlying issue instead", .medium⟩]
  ++ [⟨f, "Unsafe eval() usage detected", .high⟩]

/-- The issue/severity pairs the engine emits for a diff text; the engine's
output is this list with the filename copied into each record. -/
def ruleResults (patch : String) : List (String × Severity) :=
  (secretPatterns.flatMap fun r =>
    if r.check patch then [(r.issue, Severity.high)] else [])
  ++ (if consoleTest patch then
      [("Console statements detected - use proper logging framework", Severity.low)] else [])
  ++ (if todoTest patch then
      [("TODO/FIXME comments detected - should be tracked as issues", Severity.low)] else [])
  ++ (if lintDisableTest patch then
      [("Linting rules disabled - fix the underlying issue instead", Severity.medium)] else [])
  ++ (if evalCallTest patch then [("Unsafe eval() usage detected", Severity.high)] else [])

/-! ### Helper lemmas -/

theorem ruleHit_sublist (f : String) (c : Bool) (i : String) (s : Severity) :
    (ruleHit f c i s).Sublist [⟨f, i, s⟩] := by
  cases c <;> simp [ruleHit]

theorem secretHits_sublist (f p : String) (rules : List SecretRule) :
    (rules.flatMap fun r => ruleHit f (r.check p) r.issue .high).Sublist
      (rules.map fun r => ⟨f, r.issue, Severity.high⟩) := by
  induction rules with
  | nil => simp
  | cons r rs ih =>
    simp only [List.flatMap_cons, List.map_cons]
    exact (ruleHit_sublist f (r.check p) r.issue .high).append ih

theorem analyze_eq_map_ruleResults (f p : String) :
    analyzeFileForCompliance f p
      = (ruleResults p).map (fun q => ⟨f, q.1, q.2⟩) := by
  simp only [analyzeFileForCompliance, ruleResults, ruleHit, secretPatterns,
    List.flatMap_cons, List.flatMap_nil, List.append_nil, List.map_append,
    apply_ite (List.map fun q : String × Severity => (⟨f, q.1, q.2⟩ : ComplianceViolation)),
    List.map_cons, List.map_nil]

theorem severity_filter_sum (vs : List ComplianceViolation) :
    (vs.filter (fun v => v.severity == .high)).length
      + (vs.filter (fun v => v.severity == .medium)).length
      + (vs.filter (fun v => v.severity == .low)).length = vs.length := by
  induction vs with
  | nil => rfl
  | cons v t ih =>
    cases h : v.severity <;> simp [List.filter_cons, h] <;> omega

/-! ### Claim theorems -/

/-- C1: the engine emits at most one violation per catalog rule no matter
how often a pattern matches, the emitted violations appear in the fixed
catalog order (the output is a subsequence of the catalog, whose issue
texts are pairwise distinct), and so the output has length at most 8. -/
theorem analyze_at_most_one_per_rule (filename patch : String) :
    (analyzeFileForCompliance filename patch).Sublist (ruleCatalog filename)
    ∧ (analyzeFileForCompliance filename patch).length ≤ 8
    ∧ ((analyzeFileForCompliance filename patch).map (fun v => v.issue)).Nodup := by
  have hsub : (analyzeFileForCompliance filename patch).Sublist (ruleCatalog filename) := by
    unfold analyzeFileForCompliance ruleCatalog
    exact ((((secretHits_sublist filename patch secretPatterns).append
      (ruleHit_sublist _ _ _ _)).append (ruleHit_sublist _ _ _ _)).append
      (ruleHit_sublist _ _ _ _)).append (ruleHit_sublist _ _ _ _)
  have hlen : (ruleCatalog filename).length = 8 := by
    simp [ruleCatalog, secretPatterns]
  have hnd : ((ruleCatalog filename).map (fun v => v.issue)).Nodup := by
    simp [ruleCatalog, secretPatterns]
  exact ⟨hsub, hlen ▸ hsub.length_le, hnd.sublist (hsub.map (fun v => v.issue))⟩

/-- C2: the aggregated report passes exactly when the violation sequence is
empty, and its violations field is exactly the input sequence. -/
theorem report_passed_iff_no_violations (vs : List ComplianceViolation) :
    ((generateComplianceReport vs).passed = true ↔ vs = [])
    ∧ (generateComplianceReport vs).violations = vs := by
  refine ⟨?_, rfl⟩
  simp [generateComplianceReport]

/-- C4 (code bug): a push whose commit list is empty does not yield a
passing report; reading the undefined latest commit throws and no issue is
created, whatever the per-commit fetch returns. -/
theorem empty_push_creates_no_issue (fetch : String → FetchResult) :
    processPush [] fetch = none := rfl

/-- C7: the summary is the success line exactly when the sequence is empty
and otherwise states the total count followed by the high, medium and low
counts in that order (also when zero), and the three severity buckets
always sum to the length of the sequence. -/
theorem report_summary_breakdown (vs : List ComplianceViolation) :
    (generateComplianceReport vs).summary =
      (if vs = [] then "✅ All compliance checks passed!"
       else "❌ Found " ++ toString vs.length ++ " compliance violation(s):\n" ++
         "- " ++ toString (vs.filter (fun v => v.severity == .high)).length ++ " high severity\n" ++
         "- " ++ toString (vs.filter (fun v => v.severity == .medium)).length ++ " medium severity\n" ++
         "- " ++ toString (vs.filter (fun v => v.severity == .low)).length ++ " low severity")
    ∧ (vs.filter (fun v => v.severity == .high)).length
        + (vs.filter (fun v => v.severity == .medium)).length
        + (vs.filter (fun v => v.severity == .low)).length = vs.length := by
  refine ⟨?_, severity_filter_sum vs⟩
  cases vs <;> simp [generateComplianceReport]

/-- C9: the engine uses its filename argument only by copying it into the
file field of each emitted record: for a fixed diff text, two filenames
give the same issues and severities in the same order (hence the same
length), and every emitted record carries the given filename. -/
theorem analyze_filename_only_copied (f1 f2 t : String) :
    (analyzeFileForCompliance f1 t).map (fun v => (v.issue, v.severity))
      = (analyzeFileForCompliance f2 t).map (fun v => (v.issue, v.severity))
    ∧ (analyzeFileForCompliance f1 t).length = (analyzeFileForCompliance f2 t).length
    ∧ (analyzeFileForCompliance f1 t).all (fun v => v.file == f1) = true := by
  refine ⟨?_, ?_, ?_⟩
  · simp [analyze_eq_map_ruleResults, List.map_map, Function.comp]
  · simp [analyze_eq_map_ruleResults]
  · simp only [analyze_eq_map_ruleResults, List.all_eq_true, List.mem_map, Prod.exists]
    rintro v ⟨i, s, hmem, rfl⟩
    simp

/-! ### More helper lemmas (grouping, rendering) -/

theorem length_insertAsc (k : String) (l : List String) :
    (insertAsc k l).length = l.length + 1 := by
  induction l with
  | nil => rfl
  | cons x xs ih => rw [insertAsc]; split <;> simp [ih]

theorem length_sortByKeyNum (l : List String) :
    (sortByKeyNum l).length = l.length := by
  induction l with
  | nil => rfl
  | cons x xs ih => rw [sortByKeyNum, length_insertAsc, ih, List.length_cons]

theorem filter_partition_length (p : α → Bool) (l : List α) :
    (l.filter p).length + (l.filter (fun a => !p a)).length = l.length := by
  induction l with
  | nil => rfl
  | cons a t ih => cases h : p a <;> simp [List.filter_cons, h] <;> omega

theorem entriesKeyOrder_length (ks : List String) :
    (entriesKeyOrder ks).length = ks.length := by
  rw [entriesKeyOrder, List.length_append, length_sortByKeyNum,
    filter_partition_length]

theorem foldl_insert_length_ge (vs : List ComplianceViolation) (acc : List String) :
    acc.length ≤
      (vs.foldl (fun ks v => if v.file ∈ ks then ks else ks ++ [v.file]) acc).length := by
  induction vs generalizing acc with
  | nil => exact Nat.le_refl _
  | cons v t ih =>
    simp only [List.foldl_cons]
    split
    · exact ih acc
    · exact Nat.le_trans (by simp) (ih (acc ++ [v.file]))

theorem insertionKeys_length_pos (v : ComplianceViolation) (t : List ComplianceViolation) :
    0 < (insertionKeys (v :: t)).length := by
  have h := foldl_insert_length_ge t [v.file]
  simp only [List.length_cons, List.length_nil] at h
  simpa [insertionKeys] using h

theorem mem_foldl_insert (vs : List ComplianceViolation) (acc : List String) (k : String)
    (h : k ∈ vs.foldl (fun ks v => if v.file ∈ ks then ks else ks ++ [v.file]) acc) :
    k ∈ acc ∨ ∃ v ∈ vs, v.file = k := by
  induction vs generalizing acc with
  | nil => exact Or.inl h
  | cons v t ih =>
    simp only [List.foldl_cons] at h
    rcases ih _ h with h' | ⟨w, hw, hwk⟩
    · by_cases hv : v.file ∈ acc
      · rw [if_pos hv] at h'
        exact Or.inl h'
      · rw [if_neg hv, List.mem_append] at h'
        rcases h' with h' | h'
        · exact Or.inl h'
        · simp only [List.mem_singleton] at h'
          exact Or.inr ⟨v, List.mem_cons_self v t, h'.symm⟩
    · exact Or.inr ⟨w, List.mem_cons_of_mem v hw, hwk⟩

theorem foldl_insert_nodup (vs : List ComplianceViolation) (acc : List String)
    (hacc : acc.Nodup) :
    (vs.foldl (fun ks v => if v.file ∈ ks then ks else ks ++ [v.file]) acc).Nodup := by
  induction vs generalizing acc with
  | nil => exact hacc
  | cons v t ih =>
    simp only [List.foldl_cons]
    by_cases hv : v.file ∈ acc
    · rw [if_pos hv]; exact ih acc hacc
    · rw [if_neg hv]
      exact ih _ (by simp [List.nodup_append, hacc, hv])

theorem entriesKeyOrder_of_no_index (ks : List String)
    (h : ∀ k ∈ ks, isArrayIndexKey k = false) :
    entriesKeyOrder ks = ks := by
  have h1 : ks.filter isArrayIndexKey = [] :=
    List.filter_eq_nil_iff.2 (by intro k hk; simp [h k hk])
  have h2 : ks.filter (fun k => !isArrayIndexKey k) = ks :=
    List.filter_eq_self.2 (by intro k hk; simp [h k hk])
  rw [entriesKeyOrder, h1, h2, sortByKeyNum, List.nil_append]

theorem str_length_append (a b : String) : (a ++ b).length = a.length + b.length :=
  String.length_append a b

theorem renderGroups_ne_empty (v : ComplianceViolation) (t : List ComplianceViolation) :
    renderGroups (v :: t) ≠ "" := by
  have hpos : 0 < (groupedEntries (v :: t)).length := by
    rw [groupedEntries, List.length_map, entriesKeyOrder_length]
    exact insertionKeys_length_pos v t
  obtain ⟨e, es, hge⟩ : ∃ e es, groupedEntries (v :: t) = e :: es := by
    cases hg : groupedEntries (v :: t) with
    | nil => rw [hg] at hpos; simp at hpos
    | cons e es => exact ⟨e, es, rfl⟩
  intro hcontra
  have hlen := congrArg String.length hcontra
  rw [renderGroups, hge] at hlen
  have h8 : ("#### 📄 `" : String).length = 8 := rfl
  have h0 : ("" : String).length = 0 := rfl
  simp only [concatMap, renderFileSection, str_length_append, h8, h0] at hlen
  omega

theorem groupLoop_eq_foldl (vs : List ComplianceViolation) (acc : List String)
    (h : ∀ v ∈ vs, v.file ∉ objectProtoProps) :
    groupLoop vs acc
      = some (vs.foldl (fun ks v => if v.file ∈ ks then ks else ks ++ [v.file]) acc) := by
  induction vs generalizing acc with
  | nil => rfl
  | cons v t ih =>
    simp only [groupLoop, List.foldl_cons]
    by_cases hv : v.file ∈ acc
    · rw [if_pos hv, if_pos hv]
      exact ih _ (fun w hw => h w (List.mem_cons_of_mem v hw))
    · rw [if_neg hv, if_neg (h v (List.mem_cons_self v t)), if_neg hv]
      exact ih _ (fun w hw => h w (List.mem_cons_of_mem v hw))

/-- On violation lists without an inherited-key collision the grouping loop
returns normally, with the own keys in first-occurrence order. -/
theorem groupLoop_clean (vs : List ComplianceViolation)
    (h : ∀ v ∈ vs, v.file ∉ objectProtoProps) :
    groupLoop vs [] = some (insertionKeys vs) :=
  groupLoop_eq_foldl vs [] h

/-- Rendering the entries of the object whose own keys are the insertion
keys is the clean grouped rendering. -/
theorem renderGroupsFromKeys_insertionKeys (vs : List ComplianceViolation) :
    renderGroupsFromKeys vs (insertionKeys vs) = renderGroups vs := by
  rw [renderGroupsFromKeys, renderGroups, groupedEntries]
  generalize entriesKeyOrder (insertionKeys vs) = ks
  induction ks with
  | nil => rfl
  | cons a l ih => simp only [concatMap, List.map_cons, ih]

/-! ### Claim theorems (continued) -/

/-- C5 counterexample: the console rule's regex carries no i flag, so the
claim that every catalog rule is case-insensitive fails: the engine fires
the console rule on a lower-case console call but not on its upper-cased
variant. -/
theorem console_rule_case_sensitive_cex :
    analyzeFileForCompliance "app.js" "console.log(1)"
      = [⟨"app.js", "Console statements detected - use proper logging framework",
          Severity.low⟩]
    ∧ analyzeFileForCompliance "app.js" "CONSOLE.LOG(1)" = [] :=
  ⟨rfl, rfl⟩

/-- C5 amended: exactly the rules whose source regexes carry the i flag,
the four secretPatterns entries and the TODO rule, are case-insensitive:
their tests agree on any two texts with the same ASCII lower-casing. -/
theorem ci_flag_rules_case_insensitive (t u : String)
    (h : t.data.map lowerAscii = u.data.map lowerAscii) :
    secretPatterns.map (fun r => r.check t) = secretPatterns.map (fun r => r.check u)
    ∧ todoTest t = todoTest u := by
  constructor
  · simp only [secretPatterns, List.map_cons, List.map_nil, secretAssignTest,
      awsCredTest, containsLitCI, h]
  · simp only [todoTest, containsLitCI, h]

/-- C5 amended, witness at a concrete case-variant pair. -/
theorem ci_flag_rules_case_insensitive_witness :
    ("TODO".data.map lowerAscii = "todo".data.map lowerAscii)
    ∧ (secretPatterns.map (fun r => r.check "TODO")
        = secretPatterns.map (fun r => r.check "todo")
       ∧ todoTest "TODO" = todoTest "todo") :=
  ⟨rfl, ci_flag_rules_case_insensitive "TODO" "todo" rfl⟩

/-- C3 counterexample: the renderer groups into a plain object, and
Object.entries puts array-index keys first in ascending numeric order, so
for numeric file paths the subsections do not follow first occurrence in
the violation sequence: files seen in order 9, 2 render as 2 then 9. -/
theorem render_group_order_numeric_cex :
    insertionKeys [⟨"9", "a", Severity.low⟩, ⟨"2", "b", Severity.low⟩] = ["9", "2"]
    ∧ (groupedEntries [⟨"9", "a", Severity.low⟩, ⟨"2", "b", Severity.low⟩]).map Prod.fst
        = ["2", "9"]
    ∧ renderGroups [⟨"9", "a", Severity.low⟩, ⟨"2", "b", Severity.low⟩]
        = "#### 📄 `2`\n\n- 🔵 **LOW**: b\n\n#### 📄 `9`\n\n- 🔵 **LOW**: a\n\n" :=
  ⟨rfl, rfl, rfl⟩

/-- C3 amended: when no violation's file path is an ECMAScript array-index
key and none is an inherited Object.prototype property name, the grouping
loop returns normally with exactly the first-occurrence keys, and the
renderer produces one subsection per distinct file path, in first
occurrence order of the violation sequence, each listing that file's
violations in their original order. -/
theorem render_grouping_first_occurrence (vs : List ComplianceViolation)
    (h : ∀ v ∈ vs, isArrayIndexKey v.file = false)
    (hproto : ∀ v ∈ vs, v.file ∉ objectProtoProps) :
    groupLoop vs [] = some (insertionKeys vs)
    ∧ (groupedEntries vs).map Prod.fst = insertionKeys vs
    ∧ (insertionKeys vs).Nodup
    ∧ ∀ e ∈ groupedEntries vs, e.2 = vs.filter (fun v => v.file == e.1) := by
  have hk : ∀ k ∈ insertionKeys vs, isArrayIndexKey k = false := by
    intro k hkmem
    rcases mem_foldl_insert vs [] k hkmem with h' | ⟨v, hv, hvk⟩
    · simp at h'
    · exact hvk ▸ h v hv
  refine ⟨groupLoop_clean vs hproto, ?_, foldl_insert_nodup vs [] List.nodup_nil, ?_⟩
  · rw [groupedEntries, List.map_map, entriesKeyOrder_of_no_index _ hk]
    generalize insertionKeys vs = ks
    induction ks with
    | nil => rfl
    | cons a l ih => simpa using ih
  · intro e he
    rw [groupedEntries] at he
    obtain ⟨f, _, rfl⟩ := List.mem_map.1 he
    rfl

/-- C3 amended, witness at a concrete file path that is neither an
array-index key nor an inherited Object.prototype property name. -/
theorem render_grouping_first_occurrence_witness :
    (∀ v ∈ [(⟨"a.js", "x", Severity.low⟩ : ComplianceViolation)],
      isArrayIndexKey v.file = false)
    ∧ (∀ v ∈ [(⟨"a.js", "x", Severity.low⟩ : ComplianceViolation)],
      v.file ∉ objectProtoProps)
    ∧ (groupLoop [(⟨"a.js", "x", Severity.low⟩ : ComplianceViolation)] []
        = some (insertionKeys [(⟨"a.js", "x", Severity.low⟩ : ComplianceViolation)])
       ∧ (groupedEntries [(⟨"a.js", "x", Severity.low⟩ : ComplianceViolation)]).map Prod.fst
        = insertionKeys [(⟨"a.js", "x", Severity.low⟩ : ComplianceViolation)]
       ∧ (insertionKeys [(⟨"a.js", "x", Severity.low⟩ : ComplianceViolation)]).Nodup
       ∧ ∀ e ∈ groupedEntries [(⟨"a.js", "x", Severity.low⟩ : ComplianceViolation)],
          e.2 = [(⟨"a.js", "x", Severity.low⟩ : ComplianceViolation)].filter
            (fun v => v.file == e.1)) :=
  ⟨by decide, by decide, render_grouping_first_occurrence _ (by decide) (by decide)⟩

/-- C6 counterexample: render is not total on non-passed reports: for a
violation whose file path is an inherited Object.prototype property name,
the grouping loop throws, so this non-passed report produces no document
at all — in particular no document containing a Violations section. -/
theorem render_proto_key_throws_cex :
    (generateComplianceReport
        [⟨"toString", "Unsafe eval() usage detected", Severity.high⟩]).passed = false
    ∧ formatComplianceReport
        (generateComplianceReport
          [⟨"toString", "Unsafe eval() usage detected", Severity.high⟩])
        "0123456789" "msg" "author" = none :=
  ⟨rfl, rfl⟩

/-- C6 amended: for every violation sequence without an inherited-key
collision, the rendered document exists and is the header plus, exactly
when the sequence is non-empty, the violations section; and the grouped
block is empty exactly for the empty sequence, so a passing report omits
the whole section rather than rendering an empty or malformed one.  (On a
non-passed report with a colliding file path the renderer instead throws
and produces no document, as the counterexample shows.) -/
theorem render_violations_section_iff (vs : List ComplianceViolation)
    (hproto : ∀ v ∈ vs, v.file ∉ objectProtoProps) (sha msg author : String) :
    formatComplianceReport (generateComplianceReport vs) sha msg author
      = some (renderHeader (generateComplianceReport vs) sha msg author
          ++ (if vs.isEmpty then "" else violationsSection vs))
    ∧ ((renderGroups vs = "") ↔ vs = []) := by
  constructor
  · cases vs with
    | nil => exact congrArg some (String.append_empty _).symm
    | cons v t =>
      have hgl : groupLoop (v :: t) [] = some (insertionKeys (v :: t)) :=
        groupLoop_clean _ hproto
      calc formatComplianceReport (generateComplianceReport (v :: t)) sha msg author
          = (match groupLoop (v :: t) [] with
             | none => none
             | some keys =>
               some (renderHeader (generateComplianceReport (v :: t)) sha msg author ++
                 ("### Violations:\n\n" ++ renderGroupsFromKeys (v :: t) keys ++ "\n---\n\n" ++
                  "⚠️ Please address these violations before merging to maintain compliance standards."))) := rfl
        _ = some (renderHeader (generateComplianceReport (v :: t)) sha msg author ++
              ("### Violations:\n\n" ++ renderGroupsFromKeys (v :: t) (insertionKeys (v :: t))
                ++ "\n---\n\n" ++
                "⚠️ Please address these violations before merging to maintain compliance standards.")) := by
            rw [hgl]
        _ = some (renderHeader (generateComplianceReport (v :: t)) sha msg author
              ++ (if (v :: t).isEmpty then "" else violationsSection (v :: t))) := by
            rw [renderGroupsFromKeys_insertionKeys]
            rfl
  · constructor
    · intro h
      cases vs with
      | nil => rfl
      | cons v t => exact absurd h (renderGroups_ne_empty v t)
    · rintro rfl; rfl

/-- C6 amended, witness at a concrete non-colliding violation list. -/
theorem render_violations_section_iff_witness :
    (∀ v ∈ [(⟨"a.js", "x", Severity.low⟩ : ComplianceViolation)],
      v.file ∉ objectProtoProps)
    ∧ (formatComplianceReport
        (generateComplianceReport [(⟨"a.js", "x", Severity.low⟩ : ComplianceViolation)])
        "0123456789" "msg" "author"
        = some (renderHeader
            (generateComplianceReport [(⟨"a.js", "x", Severity.low⟩ : ComplianceViolation)])
            "0123456789" "msg" "author"
          ++ (if [(⟨"a.js", "x", Severity.low⟩ : ComplianceViolation)].isEmpty then ""
              else violationsSection [(⟨"a.js", "x", Severity.low⟩ : ComplianceViolation)]))
       ∧ ((renderGroups [(⟨"a.js", "x", Severity.low⟩ : ComplianceViolation)] = "")
          ↔ [(⟨"a.js", "x", Severity.low⟩ : ComplianceViolation)] = [])) :=
  ⟨by decide, render_violations_section_iff _ (by decide) "0123456789" "msg" "author"⟩

/-- C8: whenever the handler creates an issue, its labels are compliance
plus passed exactly when no violations were collected, and compliance
plus violation exactly when some were: never both, never neither. -/
theorem issue_labels_exactly_flag (commits : List CommitInfo)
    (fetch : String → FetchResult) (req : IssueRequest)
    (h : processPush commits fetch = some req) :
    (req.labels = ["compliance", "passed"] ∧ collectViolations commits fetch = [])
    ∨ (req.labels = ["compliance", "violation"] ∧ collectViolations commits fetch ≠ []) := by
  simp only [processPush] at h
  cases hc : commits.get? (commits.length - 1) with
  | none => rw [hc] at h; simp at h
  | some latest =>
    simp only [hc] at h
    cases hf : formatComplianceReport (generateComplianceReport (collectViolations commits fetch))
        latest.id latest.message latest.authorName with
    | none => simp [hf] at h
    | some doc =>
      simp only [hf, Option.some.injEq] at h
      subst h
      cases hv : collectViolations commits fetch with
      | nil =>
        left
        exact ⟨by simp [generateComplianceReport, hv], rfl⟩
      | cons v t =>
        right
        exact ⟨by simp [generateComplianceReport, hv], by simp [hv]⟩

/-- C8 witness: a one-commit push whose fetch fails, so the report passes
and the created issue carries compliance and passed. -/
theorem issue_labels_exactly_flag_witness :
    (((⟨issueTitle true "c1",
        renderHeader (generateComplianceReport []) "c1" "m" "a",
        ["compliance", "passed"]⟩ : IssueRequest).labels = ["compliance", "passed"]
      ∧ collectViolations [⟨"c1", "m", "a"⟩] (fun _ => FetchResult.err "x") = [])
     ∨ (((⟨issueTitle true "c1",
        renderHeader (generateComplianceReport []) "c1" "m" "a",
        ["compliance", "passed"]⟩ : IssueRequest)).labels = ["compliance", "violation"]
      ∧ collectViolations [⟨"c1", "m", "a"⟩] (fun _ => FetchResult.err "x") ≠ [])) :=
  issue_labels_exactly_flag [⟨"c1", "m", "a"⟩] (fun _ => FetchResult.err "x") _ rfl

/-- C10: whenever the handler creates an issue for a push whose last
commit is c, the issue's title is built from c's id, and its body is the
document rendered with c's id, message and author name in the metadata
header — while the violations may come from any commit of the push. -/
theorem report_uses_last_commit (commits : List CommitInfo)
    (fetch : String → FetchResult) (c : CommitInfo) (req : IssueRequest)
    (hlast : commits.getLast? = some c)
    (hreq : processPush commits fetch = some req) :
    req.title
      = issueTitle (generateComplianceReport (collectViolations commits fetch)).passed c.id
    ∧ formatComplianceReport (generateComplianceReport (collectViolations commits fetch))
        c.id c.message c.authorName = some req.body := by
  have hg : commits.get? (commits.length - 1) = some c := by
    rw [List.get?_eq_getElem?, ← List.getLast?_eq_getElem?]; exact hlast
  simp only [processPush, hg] at hreq
  cases hf : formatComplianceReport (generateComplianceReport (collectViolations commits fetch))
      c.id c.message c.authorName with
  | none => simp [hf] at hreq
  | some doc =>
    simp only [hf, Option.some.injEq] at hreq
    subst hreq
    exact ⟨rfl, rfl⟩

/-- C10 witness: a two-commit push whose single violation comes from the
first commit; the created issue's title and rendered header still use the
second (last) commit's id, message and author name. -/
theorem report_uses_last_commit_witness :
    ([⟨"c1", "m1", "a1"⟩, ⟨"c2", "m2", "a2"⟩] : List CommitInfo).getLast?
        = some ⟨"c2", "m2", "a2"⟩
    ∧ processPush exPushCommits exPushFetch = some exPushIssue
    ∧ (exPushIssue.title
        = issueTitle
            (generateComplianceReport (collectViolations exPushCommits exPushFetch)).passed "c2"
       ∧ formatComplianceReport
            (generateComplianceReport (collectViolations exPushCommits exPushFetch))
            "c2" "m2" "a2" = some exPushIssue.body) :=
  ⟨rfl, rfl, report_uses_last_commit exPushCommits exPushFetch ⟨"c2", "m2", "a2"⟩
    exPushIssue rfl rfl⟩

end ComplianceBot
